import Mathlib

/-!
Verification of the a_j_midi core: a shallow embedding of the receiver queue
(src/src/alsa_receiver_queue.cpp) and of the cycle scheduler
(src/src/jack_client.cpp), followed by theorems settling the specification
claims about them.

Modelling conventions:
* Time points and durations (sysClock::TimePoint, sysClock::SysTimeUnits) are
  integers counting microseconds; the default-constructed TimePoint is 0.
* MIDI events (snd_seq_event_t) are opaque payloads, modelled as naturals.
* Each call of sysClock::now() inside a C++ function is an explicit input of
  the Lean function (now1, now2, ...); the host clock is monotone, which a
  theorem states as a hypothesis on those inputs.
* Results of calls into the JACK engine (jack_get_cycle_times,
  jack_frames_since_cycle_start combined with frames2duration) are explicit
  inputs: `none` models a failing jack_get_cycle_times, `some` carries the
  cycle-period estimate and the already-converted frames-since-cycle-start
  duration.
* The state mutated through global variables is passed explicitly; callbacks
  are recorded as an output trace of (event, timestamp) invocations.
-/

namespace jackClient

/-- JITTER_COMPENSATION: the constant `500us` of jack_client.cpp, in
microseconds. -/
def JITTER_COMPENSATION : Int := 500

/-- The three scheduler globals of jack_client.cpp: g_cycleLength,
g_previousDeadline and g_resetTimingCount. -/
structure TimingState where
  cycleLength : Int
  previousDeadline : Int
  resetCount : Nat
deriving Repr, DecidableEq

/-- invalidateTiming(): reset g_cycleLength and g_previousDeadline to their
default values and g_resetTimingCount to zero. -/
def invalidateTiming : TimingState := ⟨0, 0, 0⟩

/-- The data obtained from the JACK engine during resetTiming():
toSysTimeUnits(periodUsecs) and frames2duration(framesSinceCycleStart). -/
structure CycleTimes where
  periodLength : Int
  framesDuration : Int
deriving Repr, DecidableEq

/-- The frames-since-cycle-start duration of an engine answer, 0 when the
engine query failed (in that case resetTiming never uses it). -/
def framesDurationOf : Option CycleTimes → Int
  | none => 0
  | some ct => ct.framesDuration

/-- isPlausible(deadline) of jack_client.cpp. The two sysClock::now() calls
(for latestPossible and for earliestPossible) are the inputs now1 and now2. -/
def isPlausibleDeadline (now1 now2 : Int) (cycleLength deadline : Int) : Bool :=
  if deadline ≥ now1 then false
  else if deadline < now2 - cycleLength - JITTER_COMPENSATION then false
  else true

/-- resetTiming() of jack_client.cpp. g_resetTimingCount is incremented
before the engine is queried; on a failing jack_get_cycle_times the function
returns sysClock::now() (input now3) leaving the other globals untouched; on
success it stores the new cycle length and deadline. -/
def resetTiming (st : TimingState) (engine : Option CycleTimes) (now3 : Int) :
    TimingState × Int :=
  let st1 : TimingState := { st with resetCount := st.resetCount + 1 }
  match engine with
  | none => (st1, now3)
  | some ct =>
      let newDl := now3 - ct.framesDuration - JITTER_COMPENSATION
      ({ st1 with cycleLength := ct.periodLength, previousDeadline := newDl }, newDl)

/-- newDeadline() of jack_client.cpp: fast path when
previousDeadline + cycleLength is plausible, otherwise resetTiming(). -/
def newDeadline (st : TimingState) (engine : Option CycleTimes)
    (now1 now2 now3 : Int) : TimingState × Int :=
  let tentativeDeadline := st.previousDeadline + st.cycleLength
  if isPlausibleDeadline now1 now2 st.cycleLength tentativeDeadline then
    ({ st with previousDeadline := tentativeDeadline }, tentativeDeadline)
  else
    resetTiming st engine now3

/-- A session of newDeadline() calls at perfectly regular intervals of length
P, starting from the invalidated state: call number n happens at time
t0 + n * P, the engine query always succeeds and always reports cycle length P
and frames-since-cycle-start duration fd. -/
def runRegular (P fd t0 : Int) : Nat → TimingState
  | 0 => invalidateTiming
  | n + 1 =>
      (newDeadline (runRegular P fd t0 n) (some ⟨P, fd⟩)
        (t0 + (n : Int) * P) (t0 + (n : Int) * P) (t0 + (n : Int) * P)).1

end jackClient

namespace alsaReceiverQueue

/-- snd_seq_event_t payloads are opaque to the queue; they are modelled as
natural-number identifiers. -/
abbrev MidiEvent := Nat

/-- The State enum of alsa_receiver_queue.cpp. -/
inductive State where
  | stopped
  | running
deriving Repr, DecidableEq

/-- The chain of FutureAlsaEvents, as observable through isReady/get:
- `invalid`: a default-constructed or moved-from future (no shared state);
- `waiting`: the listener for this slot has not yet produced a result;
- `interrupted`: the listener ended by throwing InterruptedException;
- `fatalError`: the listener ended with a fatal (non-interruption) exception,
  e.g. the std::runtime_error thrown by checkAlsa;
- `batch ts evs next`: a ready AlsaEventBatch with timestamp ts, event list
  evs, and the next future of the chain. -/
inductive Chain where
  | invalid : Chain
  | waiting : Chain
  | interrupted : Chain
  | fatalError : Chain
  | batch (timeStamp : Int) (events : List MidiEvent) (next : Chain) : Chain
deriving Repr, DecidableEq

/-- std::future::valid(): false only for a default-constructed or moved-from
future. -/
def Chain.valid : Chain → Bool
  | .invalid => false
  | _ => true

/-- isReady() of alsa_receiver_queue.cpp: valid and wait_for(0) == ready. -/
def isReady : Chain → Bool
  | .invalid => false
  | .waiting => false
  | _ => true

/-- The number of live AlsaEventBatch objects reachable from a future, i.e.
the value of currentEventBatchCount in a quiescent state. -/
def batchCount : Chain → Nat
  | .batch _ _ next => batchCount next + 1
  | _ => 0

/-- retrieveEvents() of alsa_receiver_queue.cpp: the sequencer FIFO (given in
arrival order) is drained event by event, each event being inserted with
EventList::push_front. -/
def retrieveEvents (fifo : List MidiEvent) : List MidiEvent :=
  fifo.foldl (fun eventList e => e :: eventList) []

/-- invokeClosureForeachEvent() of alsa_receiver_queue.cpp: the closure is
invoked once per list element, front to back, with the batch timestamp; the
result is the trace of closure invocations. -/
def invokeClosureForeachEvent (eventsList : List MidiEvent) (current : Int) :
    List (MidiEvent × Int) :=
  eventsList.map (fun event => (event, current))

/-- Outcome of processInternal(): either a new queue head together with the
trace of closure invocations, or a fatal exception escaping the function
(carrying the invocations already made). -/
inductive ProcResult where
  | ok (head : Chain) (out : List (MidiEvent × Int))
  | fatal (out : List (MidiEvent × Int))
deriving Repr, DecidableEq

/-- processInternal() of alsa_receiver_queue.cpp. While the head future is
ready: get() it; a batch beyond the deadline is repacked into a fresh
already-satisfied future and returned as the new head; a batch within the
deadline has its events delivered to the closure and the loop continues on
its successor; get() on an interrupted slot throws InterruptedException,
which is caught, leaving the (now invalid) future as the head; get() on a
slot holding a fatal listener error rethrows it, and that exception is not
caught. -/
def processInternal (queueHeadInternal : Chain) (deadline : Int) : ProcResult :=
  match queueHeadInternal with
  | .invalid => .ok .invalid []
  | .waiting => .ok .waiting []
  | .interrupted => .ok .invalid []
  | .fatalError => .fatal []
  | .batch ts evs next =>
      if ts > deadline then
        .ok (.batch ts evs next) []
      else
        match processInternal next deadline with
        | .ok h out => .ok h (invokeClosureForeachEvent evs ts ++ out)
        | .fatal out => .fatal (invokeClosureForeachEvent evs ts ++ out)

/-- The queue globals of alsa_receiver_queue.cpp: queueHead, stateFlag and
carryOnFlag. -/
structure QueueState where
  queueHead : Chain
  stateFlag : State
  carryOnFlag : Bool
deriving Repr, DecidableEq

/-- Outcome of the noexcept function process(): either a normal return with
the updated queue state and the trace of closure invocations, or program
termination (std::terminate) because an exception escaped a noexcept
function; the trace lists the invocations made before terminating. -/
inductive ProcessOutcome where
  | normal (st : QueueState) (out : List (MidiEvent × Int))
  | terminated (out : List (MidiEvent × Int))
deriving Repr, DecidableEq

/-- process() of alsa_receiver_queue.cpp: under the queue mutex, if queueHead
is valid, replace it by the result of processInternal; process is declared
noexcept, so a fatal exception escaping processInternal terminates the
program. -/
def process (deadline : Int) (st : QueueState) : ProcessOutcome :=
  if st.queueHead.valid then
    match processInternal st.queueHead deadline with
    | .ok h out => .normal { st with queueHead := h } out
    | .fatal out => .terminated out
  else
    .normal st []

/-- stopInternal() of alsa_receiver_queue.cpp: clear carryOnFlag, sleep
2 * SHUTDOWN_POLL_PERIOD_MS (a real-time fence with no effect on the modelled
state), replace queueHead by an empty future (dropping the whole chain) and
set stateFlag to stopped. -/
def stopInternal (_ : QueueState) : QueueState :=
  { queueHead := .invalid, stateFlag := .stopped, carryOnFlag := false }

/-- stop() of alsa_receiver_queue.cpp: stopInternal under the queue mutex. -/
def stop (st : QueueState) : QueueState := stopInternal st

/-- getCurrentEventBatchCount() of alsa_receiver_queue.cpp. -/
def getCurrentEventBatchCount (st : QueueState) : Nat := batchCount st.queueHead

/-- The batches stored in a chain, head first. -/
def batches : Chain → List (Int × List MidiEvent)
  | .batch ts evs next => (ts, evs) :: batches next
  | _ => []

/-- The timestamps stored in a chain, head first. -/
def chainTimestamps : Chain → List Int
  | .batch ts _ next => ts :: chainTimestamps next
  | _ => []

/-- Whether a chain contains a slot holding a fatal listener error. -/
def hasFatal : Chain → Bool
  | .fatalError => true
  | .batch _ _ next => hasFatal next
  | _ => false

/-- The batches a drain up to `deadline` consumes: the maximal prefix of
ready batches whose timestamp does not exceed the deadline. -/
def consumed (deadline : Int) : Chain → List (Int × List MidiEvent)
  | .batch ts evs next =>
      if ts > deadline then [] else (ts, evs) :: consumed deadline next
  | _ => []

/-- The head a drain up to `deadline` leaves behind: the chain after the
consumed prefix, where a consumed interrupted slot leaves an invalid head. -/
def remaining (deadline : Int) : Chain → Chain
  | .batch ts evs next =>
      if ts > deadline then .batch ts evs next else remaining deadline next
  | .interrupted => .invalid
  | c => c

/-- Concatenation of the closure invocations of a list of batches. -/
def flattenBatches : List (Int × List MidiEvent) → List (MidiEvent × Int)
  | [] => []
  | (ts, evs) :: rest => invokeClosureForeachEvent evs ts ++ flattenBatches rest

/-- True when the head, if it is a ready batch, has a timestamp beyond the
deadline. -/
def headReadyAfter (deadline : Int) : Chain → Bool
  | .batch ts _ _ => decide (ts > deadline)
  | _ => true

/-- The chain built by a sequence of listenForEvents iterations, each
producing a batch stamped Sys_clock::now() from the events drained out of the
sequencer FIFO, ending in the given terminator (the pending future of the
live listener, or the interrupted marker after a stop). -/
def buildChain (term : Chain) : List (Int × List MidiEvent) → Chain
  | [] => term
  | (t, fifo) :: rest => .batch t (retrieveEvents fifo) (buildChain term rest)

end alsaReceiverQueue

open jackClient alsaReceiverQueue

/-! ## Scheduler theorems (jack_client.cpp) -/

/-- C7: isPlausible(d), with both of its now() samples taken at the same
instant t, returns true if and only if
t - cycle_length - JITTER_COMPENSATION <= d < t. -/
theorem isPlausibleDeadline_iff (t c d : Int) :
    isPlausibleDeadline t t c d = true ↔
      (t - c - JITTER_COMPENSATION ≤ d ∧ d < t) := by
  simp only [isPlausibleDeadline, JITTER_COMPENSATION]
  split
  · simp only [Bool.false_eq_true, false_iff]
    omega
  · split
    · simp only [Bool.false_eq_true, false_iff]
      omega
    · simp only [true_iff]
      omega

/-- C6: on every path (fast, successful resync, failed resync), the deadline
returned by newDeadline() never exceeds the current time: with the now()
samples now1 ≤ now2 ≤ now3 taken during the call (the clock is monotone) and
a non-negative frames-since-cycle-start duration, the result is at most the
last sample now3, hence at most now() at the moment it is returned. -/
theorem newDeadline_le_now (st : TimingState) (engine : Option CycleTimes)
    (now1 now2 now3 : Int) (h12 : now1 ≤ now2) (h23 : now2 ≤ now3)
    (hfd : 0 ≤ framesDurationOf engine) :
    (newDeadline st engine now1 now2 now3).2 ≤ now3 := by
  simp only [newDeadline]
  split
  · next hpl =>
    simp only [isPlausibleDeadline] at hpl
    split at hpl
    · exact absurd hpl (by simp)
    · next h1 =>
      show st.previousDeadline + st.cycleLength ≤ now3
      omega
  · simp only [resetTiming]
    match engine with
    | none => exact le_refl now3
    | some ct =>
      simp only [framesDurationOf] at hfd
      show now3 - ct.framesDuration - JITTER_COMPENSATION ≤ now3
      simp only [JITTER_COMPENSATION]
      omega

theorem newDeadline_le_now_witness :
    (10 : Int) ≤ 10 ∧ (10 : Int) ≤ 10 ∧ (0 : Int) ≤ framesDurationOf none ∧
      (newDeadline ⟨0, 0, 0⟩ none 10 10 10).2 ≤ 10 :=
  ⟨by decide, by decide, by decide,
    newDeadline_le_now ⟨0, 0, 0⟩ none 10 10 10 (by decide) (by decide) (by decide)⟩

/-- C4, counterexample: after a resync in which the engine query fails
(state ⟨cycleLength 100, previousDeadline 2000, resetCount 7⟩ at now = 1000),
newDeadline() does return now(), but the resulting state is not the
invalidated state, and the next call (at now = 2200, when the stale tentative
deadline 2100 has become plausible again) takes the fast path: resetCount is
not incremented. -/
theorem newDeadline_failed_resync_cex :
    (newDeadline ⟨100, 2000, 7⟩ none 1000 1000 1000).2 = 1000 ∧
    (newDeadline ⟨100, 2000, 7⟩ none 1000 1000 1000).1 ≠ invalidateTiming ∧
    (newDeadline (newDeadline ⟨100, 2000, 7⟩ none 1000 1000 1000).1
        (some ⟨100, 20⟩) 2200 2200 2200).1.resetCount =
      (newDeadline ⟨100, 2000, 7⟩ none 1000 1000 1000).1.resetCount := by
  decide

/-- C4, amended: when the tentative deadline is implausible and the engine
query fails, newDeadline() returns now() and leaves cycleLength and
previousDeadline unchanged, incrementing only resetCount; the state is not
re-invalidated, so the next call resyncs again only if the unchanged
tentative deadline is still implausible then. -/
theorem newDeadline_failed_resync (st : TimingState) (now1 now2 now3 : Int)
    (h : isPlausibleDeadline now1 now2 st.cycleLength
          (st.previousDeadline + st.cycleLength) = false) :
    newDeadline st none now1 now2 now3 =
      ({ st with resetCount := st.resetCount + 1 }, now3) := by
  simp only [newDeadline, h, Bool.false_eq_true, if_false, resetTiming]

theorem newDeadline_failed_resync_witness :
    isPlausibleDeadline 1000 1000 (100 : Int) (2000 + 100) = false ∧
      newDeadline ⟨100, 2000, 7⟩ none 1000 1000 1000 = (⟨100, 2000, 8⟩, 1000) :=
  ⟨by decide, newDeadline_failed_resync ⟨100, 2000, 7⟩ 1000 1000 1000 (by decide)⟩

/-- The first newDeadline() call from the invalidated state resyncs. -/
theorem newDeadline_initial_resync (P fd t : Int) (h3 : 500 < t) :
    newDeadline invalidateTiming (some ⟨P, fd⟩) t t t =
      (⟨P, t - fd - 500, 1⟩, t - fd - 500) := by
  simp only [newDeadline, invalidateTiming, isPlausibleDeadline, resetTiming,
    JITTER_COMPENSATION]
  norm_num
  omega

/-- One regular cycle after a resync stays on the fast path. -/
theorem newDeadline_fast_step (P fd s : Int) (h1 : 0 ≤ fd) (h2 : fd ≤ P) :
    newDeadline ⟨P, s - fd - 500, 1⟩ (some ⟨P, fd⟩) (s + P) (s + P) (s + P) =
      (⟨P, s + P - fd - 500, 1⟩, s + P - fd - 500) := by
  simp only [newDeadline, isPlausibleDeadline, resetTiming, JITTER_COMPENSATION]
  norm_num
  rw [if_pos (by omega)]
  rw [show s - fd - 500 + P = s + P - fd - 500 by ring]

/-- Closed form of the regular session: every call after the first leaves the
state produced by the initial resync shifted by one cycle. -/
theorem runRegular_succ (P fd t0 : Int) (h1 : 0 ≤ fd) (h2 : fd ≤ P)
    (h3 : 500 < t0) :
    ∀ n : Nat, runRegular P fd t0 (n + 1) =
      ⟨P, t0 + (n : Int) * P - fd - 500, 1⟩ := by
  intro n
  induction n with
  | zero =>
    simp only [runRegular, Nat.cast_zero, zero_mul, add_zero]
    rw [newDeadline_initial_resync P fd t0 h3]
  | succ n ih =>
    simp only [runRegular] at ih ⊢
    rw [ih]
    push_cast
    rw [show t0 + ((n : Int) + 1) * P = (t0 + (n : Int) * P) + P by ring]
    rw [show t0 + (n : Int) * P - fd - 500 = (t0 + (n : Int) * P) - fd - 500 by ring]
    rw [newDeadline_fast_step P fd (t0 + (n : Int) * P) h1 h2]

/-- C5: from the invalidated state, a session of newDeadline() calls at
perfectly regular intervals of one cycle length P (engine queries succeeding,
frames-since-cycle-start duration fd with 0 ≤ fd ≤ P, first call after the
epoch-plus-jitter instant) increments resetCount exactly once, on the initial
resync; every later call takes the fast path, so resetCount never exceeds 1. -/
theorem runRegular_resets_once (P fd t0 : Int) (h1 : 0 ≤ fd) (h2 : fd ≤ P)
    (h3 : 500 < t0) (n : Nat) :
    (runRegular P fd t0 n).resetCount ≤ 1 ∧
      (1 ≤ n → (runRegular P fd t0 n).resetCount = 1) := by
  cases n with
  | zero => exact ⟨by simp [runRegular, invalidateTiming], by omega⟩
  | succ n =>
    rw [runRegular_succ P fd t0 h1 h2 h3 n]
    exact ⟨le_refl 1, fun _ => rfl⟩

theorem runRegular_resets_once_witness :
    (0 : Int) ≤ 5 ∧ (5 : Int) ≤ 10 ∧ (500 : Int) < 501 ∧
      (runRegular 10 5 501 3).resetCount = 1 :=
  ⟨by decide, by decide, by decide,
    (runRegular_resets_once 10 5 501 (by decide) (by decide) (by decide) 3).2
      (by decide)⟩

/-! ## Receiver queue theorems (alsa_receiver_queue.cpp) -/

lemma hasFatal_batch (ts : Int) (evs : List MidiEvent) (next : Chain) :
    hasFatal (.batch ts evs next) = hasFatal next := rfl

/-- On a chain without fatal-error slots, processInternal() consumes exactly
the maximal head prefix of ready batches whose timestamp does not exceed the
deadline, invoking the closure on their events in order, and leaves the
remaining chain as the new head. -/
lemma processInternal_no_fatal (deadline : Int) :
    ∀ c : Chain, hasFatal c = false →
      processInternal c deadline =
        .ok (remaining deadline c) (flattenBatches (consumed deadline c)) := by
  intro c
  induction c with
  | invalid => intro _; rfl
  | waiting => intro _; rfl
  | interrupted => intro _; rfl
  | fatalError => intro h; exact absurd h (by simp [hasFatal])
  | batch ts evs next ih =>
    intro h
    rw [hasFatal_batch] at h
    simp only [processInternal, remaining, consumed]
    split
    · simp [flattenBatches]
    · rw [ih h]
      simp [flattenBatches]

/-- No batch is lost: every batch of the chain is either consumed or still in
the remaining chain. -/
lemma batches_decomp (deadline : Int) :
    ∀ c : Chain, batches c = consumed deadline c ++ batches (remaining deadline c) := by
  intro c
  induction c with
  | invalid => rfl
  | waiting => rfl
  | interrupted => rfl
  | fatalError => rfl
  | batch ts evs next ih =>
    simp only [batches, consumed, remaining]
    split
    · simp [batches]
    · simp only [List.cons_append, List.cons.injEq, true_and]
      exact ih

/-- After a drain, the head, if it is a ready batch, is beyond the deadline. -/
lemma headReadyAfter_remaining (deadline : Int) :
    ∀ c : Chain, headReadyAfter deadline (remaining deadline c) = true := by
  intro c
  induction c with
  | invalid => rfl
  | waiting => rfl
  | interrupted => rfl
  | fatalError => rfl
  | batch ts evs next ih =>
    simp only [remaining]
    split
    · next hgt => simp [headReadyAfter, hgt]
    · exact ih

/-- C1: for every deadline and every chain without fatal-error slots,
processInternal() consumes exactly the head prefix of ready batches with
timestamp at most the deadline, invoking the callback once per event of each
consumed batch in order; a ready batch beyond the deadline is re-installed as
the head (its events repacked, nothing lost), processing stops at the first
waiting slot, and the head after the call, if present and ready, has a
timestamp beyond the deadline. -/
theorem processInternal_drain_semantics (deadline : Int) (c : Chain)
    (h : hasFatal c = false) :
    processInternal c deadline =
        .ok (remaining deadline c) (flattenBatches (consumed deadline c)) ∧
      batches c = consumed deadline c ++ batches (remaining deadline c) ∧
      headReadyAfter deadline (remaining deadline c) = true :=
  ⟨processInternal_no_fatal deadline c h, batches_decomp deadline c,
    headReadyAfter_remaining deadline c⟩

theorem processInternal_drain_semantics_witness :
    hasFatal (.batch 5 [1, 2] (.batch 20 [3] .waiting)) = false ∧
      (processInternal (.batch 5 [1, 2] (.batch 20 [3] .waiting)) 10 =
          .ok (remaining 10 (.batch 5 [1, 2] (.batch 20 [3] .waiting)))
            (flattenBatches (consumed 10 (.batch 5 [1, 2] (.batch 20 [3] .waiting)))) ∧
        batches (.batch 5 [1, 2] (.batch 20 [3] .waiting)) =
          consumed 10 (.batch 5 [1, 2] (.batch 20 [3] .waiting)) ++
            batches (remaining 10 (.batch 5 [1, 2] (.batch 20 [3] .waiting))) ∧
        headReadyAfter 10 (remaining 10 (.batch 5 [1, 2] (.batch 20 [3] .waiting))) = true) :=
  ⟨by decide, processInternal_drain_semantics 10 _ (by decide)⟩

/-- C2: the code violates the claim. A sequencer FIFO delivering event 0 then
event 1 in one drain yields the batch list [1, 0]: retrieveEvents builds the
EventList with push_front, so invokeClosureForeachEvent (which iterates the
list front to back) delivers the events in reverse source order. -/
theorem retrieveEvents_reverses_fifo :
    retrieveEvents [0, 1] = [1, 0] ∧
      invokeClosureForeachEvent (retrieveEvents [0, 1]) 5 = [(1, 5), (0, 5)] ∧
      retrieveEvents [0, 1] ≠ [0, 1] := by
  decide

/-- C3: the code violates the claim. When the head chain holds a fatal
listener error (here: one batch at timestamp 1 followed by a fatal-error
slot), process() delivers the batch and then the rethrown error escapes the
noexcept function: the program terminates; the error is not surfaced to the
caller and the queue never transitions to Stopped. -/
theorem process_fatal_terminates :
    process 100 ⟨.batch 1 [7] .fatalError, .running, true⟩ = .terminated [(7, 1)] := by
  decide

/-- C9: stop() never fails (it is a total function on queue states), and
afterwards the state flag is stopped, the head future is dropped, and
getCurrentEventBatchCount() is 0, whatever was queued before. -/
theorem stop_clears_queue (st : QueueState) :
    (stop st).stateFlag = .stopped ∧ (stop st).queueHead = .invalid ∧
      getCurrentEventBatchCount (stop st) = 0 :=
  ⟨rfl, rfl, rfl⟩

/-- C10: when the head future is not valid (queue stopped or never started),
process() is a no-op: the closure is never invoked, nothing is thrown and the
queue state is returned unchanged. -/
theorem process_noop_when_invalid (deadline : Int) (st : QueueState)
    (h : st.queueHead.valid = false) :
    process deadline st = .normal st [] := by
  simp [process, h]

theorem process_noop_when_invalid_witness :
    (Chain.valid (QueueState.mk .invalid .stopped false).queueHead) = false ∧
      process 0 ⟨.invalid, .stopped, false⟩ = .normal ⟨.invalid, .stopped, false⟩ [] :=
  ⟨by decide, process_noop_when_invalid 0 ⟨.invalid, .stopped, false⟩ (by decide)⟩

lemma mem_consumed_fst (deadline : Int) :
    ∀ c : Chain, ∀ x : Int, x ∈ (consumed deadline c).map Prod.fst →
      x ∈ chainTimestamps c := by
  intro c
  induction c with
  | invalid => intro x hx; simp [consumed] at hx
  | waiting => intro x hx; simp [consumed] at hx
  | interrupted => intro x hx; simp [consumed] at hx
  | fatalError => intro x hx; simp [consumed] at hx
  | batch ts evs next ih =>
    intro x hx
    simp only [consumed] at hx
    split at hx
    · simp at hx
    · simp only [List.map_cons, List.mem_cons] at hx
      rcases hx with hx | hx
      · simp [chainTimestamps, hx]
      · simp only [chainTimestamps, List.mem_cons]
        exact Or.inr (ih x hx)

lemma pairwise_consumed (deadline : Int) :
    ∀ c : Chain, List.Pairwise (· ≤ ·) (chainTimestamps c) →
      List.Pairwise (· ≤ ·) ((consumed deadline c).map Prod.fst) := by
  intro c
  induction c with
  | invalid => intro _; simp [consumed]
  | waiting => intro _; simp [consumed]
  | interrupted => intro _; simp [consumed]
  | fatalError => intro _; simp [consumed]
  | batch ts evs next ih =>
    intro h
    simp only [chainTimestamps, List.pairwise_cons] at h
    simp only [consumed]
    split
    · simp
    · simp only [List.map_cons, List.pairwise_cons]
      exact ⟨fun b hb => h.1 b (mem_consumed_fst deadline next b hb), ih h.2⟩

lemma mem_flattenBatches_snd :
    ∀ L : List (Int × List MidiEvent), ∀ x : Int,
      x ∈ (flattenBatches L).map Prod.snd → x ∈ L.map Prod.fst := by
  intro L
  induction L with
  | nil => intro x hx; simp [flattenBatches] at hx
  | cons p rest ih =>
    intro x hx
    obtain ⟨ts, evs⟩ := p
    simp only [flattenBatches, List.map_append, List.mem_append] at hx
    rcases hx with hx | hx
    · simp only [invokeClosureForeachEvent, List.map_map, List.mem_map] at hx
      obtain ⟨e, _, he⟩ := hx
      simp only [Function.comp_apply] at he
      simp [← he]
    · simp only [List.map_cons, List.mem_cons]
      exact Or.inr (ih x hx)

lemma pairwise_flattenBatches :
    ∀ L : List (Int × List MidiEvent),
      List.Pairwise (· ≤ ·) (L.map Prod.fst) →
      List.Pairwise (· ≤ ·) ((flattenBatches L).map Prod.snd) := by
  intro L
  induction L with
  | nil => intro _; simp [flattenBatches]
  | cons p rest ih =>
    intro h
    obtain ⟨ts, evs⟩ := p
    simp only [List.map_cons, List.pairwise_cons] at h
    simp only [flattenBatches, List.map_append, List.pairwise_append]
    refine ⟨?_, ih h.2, ?_⟩
    · simp only [invokeClosureForeachEvent, List.map_map, List.pairwise_map]
      exact List.pairwise_of_forall (fun _ _ => le_refl ts)
    · intro a ha b hb
      simp only [invokeClosureForeachEvent, List.map_map, List.mem_map] at ha
      obtain ⟨e, _, he⟩ := ha
      simp only [Function.comp_apply] at he
      rw [← he]
      exact h.1 b (mem_flattenBatches_snd rest b hb)

lemma chainTimestamps_buildChain (bs : List (Int × List MidiEvent)) :
    chainTimestamps (buildChain .waiting bs) = bs.map Prod.fst := by
  induction bs with
  | nil => rfl
  | cons p rest ih =>
    obtain ⟨t, fifo⟩ := p
    simp only [buildChain, chainTimestamps, List.map_cons, List.cons.injEq, true_and]
    exact ih

lemma hasFatal_buildChain (bs : List (Int × List MidiEvent)) :
    hasFatal (buildChain .waiting bs) = false := by
  induction bs with
  | nil => rfl
  | cons p rest ih =>
    obtain ⟨t, fifo⟩ := p
    simpa [buildChain, hasFatal] using ih

/-- C8: a chain built by successive listener iterations whose timestamps are
taken from a monotone clock has non-decreasing timestamps in chain order;
processInternal() delivers the consumed batches in exactly that chain order,
so the trace of closure invocations carries non-decreasing timestamps. -/
theorem chain_monotonic_delivery (bs : List (Int × List MidiEvent)) (d : Int)
    (h : List.Pairwise (· ≤ ·) (bs.map Prod.fst)) :
    List.Pairwise (· ≤ ·) (chainTimestamps (buildChain .waiting bs)) ∧
      processInternal (buildChain .waiting bs) d =
        .ok (remaining d (buildChain .waiting bs))
          (flattenBatches (consumed d (buildChain .waiting bs))) ∧
      List.Pairwise (· ≤ ·)
        ((flattenBatches (consumed d (buildChain .waiting bs))).map Prod.snd) := by
  refine ⟨?_, ?_, ?_⟩
  · rw [chainTimestamps_buildChain]; exact h
  · exact processInternal_no_fatal d _ (hasFatal_buildChain bs)
  · exact pairwise_flattenBatches _
      (pairwise_consumed d _ (by rw [chainTimestamps_buildChain]; exact h))

theorem chain_monotonic_delivery_witness :
    List.Pairwise (· ≤ ·) (([(1, [10]), (2, [20, 21])] :
        List (Int × List MidiEvent)).map Prod.fst) ∧
      (List.Pairwise (· ≤ ·)
          (chainTimestamps (buildChain .waiting [(1, [10]), (2, [20, 21])])) ∧
        processInternal (buildChain .waiting [(1, [10]), (2, [20, 21])]) 1 =
          .ok (remaining 1 (buildChain .waiting [(1, [10]), (2, [20, 21])]))
            (flattenBatches (consumed 1 (buildChain .waiting [(1, [10]), (2, [20, 21])]))) ∧
        List.Pairwise (· ≤ ·)
          ((flattenBatches (consumed 1 (buildChain .waiting
            [(1, [10]), (2, [20, 21])]))).map Prod.snd)) :=
  ⟨by decide, chain_monotonic_delivery [(1, [10]), (2, [20, 21])] 1 (by decide)⟩
